import Mathlib

/-!
Verification development for the RAG chatbot backend (`backend/main.py`).

The Python source is shallowly embedded: pure helpers (`chunk_text`, prompt
construction, source formatting, id assignment) become Lean functions over
`String`/`List Char`; the external collaborators (embedding model, Chroma
collection, Ollama) are modelled as an explicit environment record, and the
calls the pipeline makes to them are recorded as an event trace.  Python
machine-level behaviours that the code relies on are modelled explicitly:
`str.split()` / `' '.join` / `str.strip()` at the character-list level,
`range(start, stop, step)` including its `ValueError` on a zero step and its
empty result on a negative step with a nonnegative span, list slicing with
clamping, and f-string decimal rendering of nonnegative ints.
-/

namespace RagChatbot

/-- Python `str.split()` helper: accumulates the current (reversed) word in
`acc`, splitting on whitespace runs and dropping empty pieces. -/
def splitWsAux : List Char → List Char → List (List Char)
  | [], acc => if acc = [] then [] else [acc.reverse]
  | c :: cs, acc =>
    if c.isWhitespace then
      if acc = [] then splitWsAux cs [] else acc.reverse :: splitWsAux cs []
    else splitWsAux cs (c :: acc)

/-- Python `text.split()` (no separator argument): split on runs of
whitespace, no empty words. -/
def splitWs (l : List Char) : List (List Char) := splitWsAux l []

/-- Python `' '.join(words)` at the character-list level. -/
def joinSp : List (List Char) → List Char
  | [] => []
  | [w] => w
  | w :: w' :: ws => w ++ ' ' :: joinSp (w' :: ws)

/-- Python `s.strip()`: remove leading and trailing whitespace. -/
def pyStrip (l : List Char) : List Char :=
  ((l.dropWhile Char.isWhitespace).reverse.dropWhile Char.isWhitespace).reverse

/-- The word list of a Python string, as Lean strings: `text.split()`. -/
def pyWords (s : String) : List String := (splitWs s.data).map String.mk

/-- Resolution of one Python slice index against a list length: negative
indices count from the end, out-of-range indices are clamped. -/
def pyIdx (idx : Int) (n : Nat) : Nat :=
  if idx < 0 then (max ((n : Int) + idx) 0).toNat else (min idx (n : Int)).toNat

/-- Python list slicing `l[start:stop]` (step 1). -/
def pySlice {α : Type} (l : List α) (start stop : Int) : List α :=
  (l.take (pyIdx stop l.length)).drop (pyIdx start l.length)

/-- The indices produced by Python `range(start, n, step)` for a positive
`step`. -/
def rangeStep (start n step : Nat) : List Nat :=
  if _h : 0 < step ∧ start < n then start :: rangeStep (start + step) n step
  else []
termination_by n - start
decreasing_by omega

/-- Errors raised by the Python runtime in the embedded fragment.
`range(0, n, 0)` raises `ValueError: range() arg 3 must not be zero`. -/
inductive PyErr : Type where
  | valueError : PyErr
deriving DecidableEq

/-- `chunk_text(text, chunk_size=500, overlap=50)` from `backend/main.py`:
split into words, then windows `words[i:i+chunk_size]` for
`i in range(0, len(words), chunk_size - overlap)`, joined with single spaces,
keeping a chunk only if `chunk.strip()` is truthy. -/
def chunk_text (text : String) (chunk_size : Int := 500) (overlap : Int := 50) :
    Except PyErr (List String) :=
  if chunk_size - overlap = 0 then .error .valueError
  else
    .ok (((if 0 < chunk_size - overlap then
            rangeStep 0 (splitWs text.data).length (chunk_size - overlap).toNat
          else []).map
        (fun (i : Nat) =>
          String.mk (joinSp (pySlice (splitWs text.data) (i : Int) ((i : Int) + chunk_size))))).filter
      (fun chunk => !(pyStrip chunk.data).isEmpty))

/-- Decimal digit character: `digitChar d` is the character for digit `d`. -/
def digitChar (d : Nat) : Char := Char.ofNat (48 + d)

/-- Fuel-driven decimal rendering; the fuel is always at least `n + 1`, so the
`[]` base case is never reached. -/
def toDecAux : Nat → Nat → List Char
  | 0, _ => []
  | fuel + 1, n =>
    if n < 10 then [digitChar n]
    else toDecAux fuel (n / 10) ++ [digitChar (n % 10)]

/-- Python `str(n)` / f-string rendering of a nonnegative int, as characters. -/
def natToDecimal (n : Nat) : List Char := toDecAux (n + 1) n

/-- Python `str(n)` for a nonnegative int, as a string. -/
def pyStrNat (n : Nat) : String := String.mk (natToDecimal n)

/-- Decimal decoding, used to show `natToDecimal` is injective. -/
def decodeDecimal (l : List Char) : Nat :=
  l.foldl (fun acc c => 10 * acc + (c.toNat - 48)) 0

/-- A fetched Wikipedia article as built by `fetch_wikipedia_articles`:
`{'title': ..., 'content': ..., 'url': ...}`. -/
structure Article where
  title : String
  content : String
  url : String
deriving DecidableEq

/-- The metadata dict attached to one chunk in `populate_database`:
`{'title': ..., 'url': ..., 'chunk_id': i}`. -/
structure Metadata where
  title : String
  url : String
  chunk_id : Nat
deriving DecidableEq

/-- The chunk id assigned in `populate_database`: `f"{doc_id}_{i}"`. -/
def mkId (doc_id chunk_idx : Nat) : String :=
  String.mk (natToDecimal doc_id ++ '_' :: natToDecimal chunk_idx)

/-- One result row of `query_documents`:
`{'content': ..., 'metadata': ..., 'distance': ...}`.  The distance type `D`
is abstract (the store's similarity score plays no computational role here). -/
structure RetrievedDoc (D : Type) where
  content : String
  metadata : Metadata
  distance : D
deriving DecidableEq

/-- The calls the pipeline makes to its external collaborators, with the
arguments passed.  `V` is the embedding-vector type. -/
inductive Event (V : Type) : Type where
  | countCall : Event V
  | fetchCall : Event V
  | encodeCall (texts : List String) : Event V
  | addCall (documents : List String) (embeddings : List V)
      (metadatas : List Metadata) (ids : List String) : Event V
  | queryCall (query_embeddings : List V) (n_results : Int) : Event V
deriving DecidableEq

/-- The external collaborators of the core (spec §6), modelled as total
functions: the Chroma collection's current count, the article source, the
sentence-transformer `encode(...).tolist()` (one vector per input text), the
collection's nearest-neighbour query (aligned `(text, metadata, distance)`
rows, per the store interface), and `ollama.generate` (`.error e` models a
raised exception with message `str(e)`). -/
structure Env (V D : Type) where
  count : Nat
  fetchArticles : List Article
  encode : List String → List V
  query : List V → Int → List (String × Metadata × D)
  generate : String → Except String String

/-- The chunk/metadata/id accumulation loop of `populate_database`
(lines 116–135): per article in order, a document sequence number `doc_id`
increasing from the given start, appending each chunk's text, its metadata
record and its `f"{doc_id}_{i}"` id to three parallel lists. -/
def buildLists : List Article → Nat → Except PyErr (List String × List Metadata × List String)
  | [], _ => .ok ([], [], [])
  | article :: rest, doc_id =>
    match chunk_text article.content 500 50 with
    | .error e => .error e
    | .ok chunks =>
      match buildLists rest (doc_id + 1) with
      | .error e => .error e
      | .ok (documents, metadatas, ids) =>
        .ok (chunks ++ documents,
             (chunks.enum.map (fun p => Metadata.mk article.title article.url p.1)) ++ metadatas,
             (chunks.enum.map (fun p => mkId doc_id p.1)) ++ ids)

/-- `populate_database()`: if `collection.count() > 0` return at once (the
count is read a second time by the skip message); otherwise fetch articles
(returning if none), build the three parallel lists, embed all chunk texts in
one call and add everything to the collection in one call.  Returns the event
trace and the number of chunks added. -/
def populate_database {V D : Type} (env : Env V D) : Except PyErr (List (Event V) × Nat) :=
  if 0 < env.count then .ok ([Event.countCall, Event.countCall], 0)
  else if env.fetchArticles.isEmpty then .ok ([Event.countCall, Event.fetchCall], 0)
  else
    match buildLists env.fetchArticles 0 with
    | .error e => .error e
    | .ok (documents, metadatas, ids) =>
      .ok ([Event.countCall, Event.fetchCall, Event.encodeCall documents,
            Event.addCall documents (env.encode documents) metadatas ids], documents.length)

/-- Interpretation of an event trace against a ledger of store contents: only
`collection.add` changes the store. -/
def storeAfter {V : Type}
    (init : List (List String × List V × List Metadata × List String))
    (evts : List (Event V)) :
    List (List String × List V × List Metadata × List String) :=
  evts.foldl
    (fun s e =>
      match e with
      | .addCall docs embs metas ids => s ++ [(docs, embs, metas, ids)]
      | _ => s) init

/-- `query_documents(query, top_k=3)`: embed the query (as a one-element
batch), query the collection with `n_results=top_k`, and repackage each result
row as a dict.  Returns the trace of external calls next to the result. -/
def query_documents {V D : Type} (env : Env V D) (query : String) (top_k : Int) :
    List (Event V) × List (RetrievedDoc D) :=
  let query_embedding := env.encode [query]
  let results := env.query query_embedding top_k
  ([Event.encodeCall [query], Event.queryCall query_embedding top_k],
   results.map (fun r => ⟨r.1, r.2.1, r.2.2⟩))

/-- The prompt f-string assembled in `generate_answer`, with
`context = "\n\n".join(doc['content'] for doc in context_docs)`. -/
def build_prompt {D : Type} (question : String) (context_docs : List (RetrievedDoc D)) : String :=
  let context := String.intercalate "\n\n" (context_docs.map (fun doc => doc.content))
  "Based on the following context, please answer the question. If the answer cannot be found in the context, please say so.\n\nContext:\n"
    ++ context ++ "\n\nQuestion: " ++ question ++ "\n\nAnswer:"

/-- The fixed instruction text that `generate_answer`'s f-string places
before the context (it carries the say-so-when-not-found instruction). -/
def promptInstructionText : String :=
  "Based on the following context, please answer the question. If the answer cannot be found in the context, please say so.\n\nContext:\n"

/-- The fixed text the f-string places between the context and the question. -/
def promptQuestionHeader : String := "\n\nQuestion: "

/-- The fixed text the f-string places after the question. -/
def promptAnswerTail : String := "\n\nAnswer:"

/-- `generate_answer(question, context_docs)`: call Ollama with the assembled
prompt; any exception is caught and turned into the fixed apology string with
`str(e)` interpolated. -/
def generate_answer {V D : Type} (env : Env V D) (question : String)
    (context_docs : List (RetrievedDoc D)) : String :=
  match env.generate (build_prompt question context_docs) with
  | .ok response => response
  | .error e =>
      "Error generating response: " ++ e
        ++ ". Please make sure Ollama is running and Llama3 model is installed."

/-- The body of the per-doc source formatting in `chat`:
`f"{title}"`, plus `f" ({url})"` when the url is truthy (non-empty). -/
def fmtSource (m : Metadata) : String :=
  if m.url = "" then m.title else m.title ++ " (" ++ m.url ++ ")"

/-- Python `list(set(sources))`: one occurrence per distinct element,
iteration order unspecified (modelled by `List.dedup`; every property proved
about it is order-independent). -/
def pySetList (l : List String) : List String := l.dedup

/-- The request model `QueryRequest` (`top_k` defaults to 3). -/
structure QueryRequest where
  question : String
  top_k : Int := 3
deriving DecidableEq

/-- The response model `QueryResponse`. -/
structure QueryResponse where
  answer : String
  sources : List String
deriving DecidableEq

/-- A raised `fastapi.HTTPException`, as seen by the transport layer. -/
structure HTTPExc where
  status_code : Nat
  detail : String
deriving DecidableEq

/-- An exception escaping the `try` block of `chat`.  In the embedded
fragment the only raiser is the `HTTPException(404)` on empty retrieval
(external failures are modelled as total functions). -/
inductive PyExc : Type where
  | http (status_code : Nat) (detail : String) : PyExc
deriving DecidableEq

/-- Python `str(e)` for a `starlette`/`fastapi` `HTTPException`:
`f"{status_code}: {detail}"`. -/
def pyStrExc : PyExc → String
  | .http code detail => pyStrNat code ++ ": " ++ detail

/-- The `try` block of the `chat` endpoint: retrieve, raise
`HTTPException(404)` when nothing came back, generate the answer, build and
deduplicate the source strings.  The Python binds `relevant_docs` once;
`query_documents` is pure, so its repeated occurrences here denote that same
value. -/
def chat_body {V D : Type} (env : Env V D) (request : QueryRequest) :
    Except PyExc QueryResponse :=
  if ((query_documents env request.question request.top_k).2).isEmpty then
    .error (.http 404 "No relevant documents found")
  else
    .ok { answer := generate_answer env request.question
            (query_documents env request.question request.top_k).2,
          sources := pySetList (((query_documents env request.question request.top_k).2).map
            (fun doc => fmtSource doc.metadata)) }

/-- The `chat` endpoint: any exception escaping the `try` block — including
the endpoint's own `HTTPException(404)`, which subclasses `Exception` — is
caught by `except Exception as e` and re-raised as
`HTTPException(status_code=500, detail=str(e))`. -/
def chat {V D : Type} (env : Env V D) (request : QueryRequest) :
    Except HTTPExc QueryResponse :=
  match chat_body env request with
  | .ok resp => .ok resp
  | .error e => .error { status_code := 500, detail := pyStrExc e }

/-- A service state with an empty vector store: `collection.query` returns no
documents.  Embedding vectors are modelled as `Nat`, distances as `Int`. -/
def envEmptyStore : Env Nat Int where
  count := 0
  fetchArticles := []
  encode := fun ts => ts.map (fun _ => 0)
  query := fun _ _ => []
  generate := fun _ => .ok "ok"

/-- A service state used to observe the calls `query_documents` makes when
given a non-positive `top_k`. -/
def envNoValidation : Env Nat Int where
  count := 0
  fetchArticles := []
  encode := fun ts => ts.map (fun _ => 0)
  query := fun _ _ => []
  generate := fun _ => .ok "ok"

/-- A service state whose collection already holds one item. -/
def envPrePopulated : Env Nat Int where
  count := 1
  fetchArticles := []
  encode := fun ts => ts.map (fun _ => 0)
  query := fun _ _ => []
  generate := fun _ => .ok "ok"

/-- A service state where retrieval finds one chunk and the generation client
raises an exception with message `"boom"`. -/
def envGenFail : Env Nat Int where
  count := 0
  fetchArticles := []
  encode := fun ts => ts.map (fun _ => 0)
  query := fun _ _ => [("some text", ⟨"T", "u", 0⟩, 0)]
  generate := fun _ => .error "boom"

/-- A service state where retrieval returns two chunks whose
`(title, url)` pairs are distinct yet format to the same source string:
`("A (B)", "")` and `("A", "B")` both render as `"A (B)"`. -/
def envCollide : Env Nat Int where
  count := 0
  fetchArticles := []
  encode := fun ts => ts.map (fun _ => 0)
  query := fun _ _ => [("x", ⟨"A (B)", "", 0⟩, 0), ("y", ⟨"A", "B", 0⟩, 0)]
  generate := fun _ => .ok "ans"

/-- A service state with an empty collection and one fetchable article, used
to exercise the full ingestion path. -/
def envOneDoc : Env Nat Int where
  count := 0
  fetchArticles := [⟨"T", "a b c", "u"⟩]
  encode := fun ts => ts.map (fun _ => 0)
  query := fun _ _ => []
  generate := fun _ => .ok "ok"

/-! ## Properties of the Python string primitives -/

theorem splitWsAux_wf (l : List Char) : ∀ (acc : List Char),
    (∀ c ∈ acc, c.isWhitespace = false) →
    ∀ w ∈ splitWsAux l acc, w ≠ [] ∧ ∀ c ∈ w, c.isWhitespace = false := by
  induction l with
  | nil =>
    intro acc hacc w hw
    simp only [splitWsAux] at hw
    split at hw
    · simp at hw
    · next hne =>
      simp only [List.mem_singleton] at hw
      subst hw
      refine ⟨by simpa using hne, ?_⟩
      intro c hc
      exact hacc c (List.mem_reverse.mp hc)
  | cons c cs ih =>
    intro acc hacc w hw
    simp only [splitWsAux] at hw
    by_cases hws : c.isWhitespace = true
    · rw [if_pos hws] at hw
      by_cases hemp : acc = []
      · rw [if_pos hemp] at hw
        exact ih [] (by simp) w hw
      · rw [if_neg hemp] at hw
        rcases List.mem_cons.mp hw with rfl | hw'
        · refine ⟨by simpa using hemp, ?_⟩
          intro c' hc'
          exact hacc c' (List.mem_reverse.mp hc')
        · exact ih [] (by simp) w hw'
    · rw [if_neg hws] at hw
      refine ih (c :: acc) ?_ w hw
      intro c' hc'
      rcases List.mem_cons.mp hc' with rfl | h'
      · simpa using hws
      · exact hacc c' h'

theorem splitWs_wf {l : List Char} :
    ∀ w ∈ splitWs l, w ≠ [] ∧ ∀ c ∈ w, c.isWhitespace = false :=
  splitWsAux_wf l [] (by simp)

theorem splitWsAux_append : ∀ (w rest acc : List Char),
    (∀ c ∈ w, c.isWhitespace = false) →
    splitWsAux (w ++ rest) acc = splitWsAux rest (w.reverse ++ acc) := by
  intro w
  induction w with
  | nil => intro rest acc _; simp
  | cons c cs ih =>
    intro rest acc hw
    have hc : c.isWhitespace = false := hw c (List.mem_cons_self ..)
    show splitWsAux (c :: (cs ++ rest)) acc = _
    simp only [splitWsAux, hc, Bool.false_eq_true, if_false]
    rw [ih rest (c :: acc) (fun c' h' => hw c' (List.mem_cons_of_mem _ h'))]
    simp [List.reverse_cons, List.append_assoc]

theorem splitWs_joinSp : ∀ (ws : List (List Char)),
    (∀ w ∈ ws, w ≠ [] ∧ ∀ c ∈ w, c.isWhitespace = false) →
    splitWs (joinSp ws) = ws := by
  intro ws
  induction ws with
  | nil => intro _; rfl
  | cons w ws ih =>
    intro h
    obtain ⟨hne, hwf⟩ := h w (List.mem_cons_self ..)
    cases ws with
    | nil =>
      show splitWsAux (joinSp [w]) [] = [w]
      have : joinSp [w] = w ++ [] := by simp [joinSp]
      rw [this, splitWsAux_append w [] [] hwf]
      simp only [splitWsAux, List.append_nil]
      rw [if_neg (by simpa using hne), List.reverse_reverse]
    | cons w' ws' =>
      show splitWsAux (joinSp (w :: w' :: ws')) [] = w :: w' :: ws'
      have : joinSp (w :: w' :: ws') = w ++ ' ' :: joinSp (w' :: ws') := rfl
      rw [this, splitWsAux_append w _ [] hwf]
      simp only [List.append_nil]
      show splitWsAux (' ' :: joinSp (w' :: ws')) w.reverse = _
      simp only [splitWsAux]
      rw [if_pos (by decide), if_neg (by simpa using hne), List.reverse_reverse]
      congr 1
      exact ih (fun x hx => h x (List.mem_cons_of_mem _ hx))

theorem joinSp_cons (w : List Char) (ws : List (List Char)) :
    ∃ t, joinSp (w :: ws) = w ++ t := by
  cases ws with
  | nil => exact ⟨[], by simp [joinSp]⟩
  | cons w' ws' => exact ⟨' ' :: joinSp (w' :: ws'), rfl⟩

theorem pyStrip_ne_nil {l : List Char} {c : Char} (hc : c ∈ l)
    (hw : c.isWhitespace = false) : pyStrip l ≠ [] := by
  intro h
  unfold pyStrip at h
  rw [List.reverse_eq_nil_iff, List.dropWhile_eq_nil_iff] at h
  have hsplit := List.takeWhile_append_dropWhile (p := Char.isWhitespace) (l := l)
  rw [← hsplit] at hc
  rcases List.mem_append.mp hc with h1 | h2
  · have := List.mem_takeWhile_imp h1
    rw [hw] at this
    exact Bool.false_ne_true this
  · have := h c (List.mem_reverse.mpr h2)
    rw [hw] at this
    exact Bool.false_ne_true this

theorem pySlice_natCast {α : Type} (l : List α) (i : Nat) (c : Int) (hc : 0 ≤ c) :
    pySlice l (i : Int) ((i : Int) + c) = (l.drop i).take c.toNat := by
  unfold pySlice pyIdx
  rw [if_neg (by omega), if_neg (by omega)]
  by_cases hi : i ≤ l.length
  · have hs : (min ((i : Int)) ((l.length : Int))).toNat = i := by omega
    by_cases hie : (i : Int) + c ≤ (l.length : Int)
    · have he : (min ((i : Int) + c) ((l.length : Int))).toNat = i + c.toNat := by omega
      rw [hs, he, ← List.take_drop]
    · have he : (min ((i : Int) + c) ((l.length : Int))).toNat = l.length := by omega
      rw [hs, he, List.take_length]
      rw [List.take_of_length_le (by rw [List.length_drop]; omega)]
  · have hs : (min ((i : Int)) ((l.length : Int))).toNat = l.length := by omega
    rw [hs]
    rw [List.drop_eq_nil_of_le (by rw [List.length_take]; omega)]
    rw [List.drop_eq_nil_of_le (by omega)]
    simp

/-! ## Properties of `rangeStep` (Python `range` with positive step) -/

theorem mem_rangeStep_bounds {n step : Nat} :
    ∀ {start j : Nat}, j ∈ rangeStep start n step → start ≤ j ∧ j < n := by
  have H : ∀ (k start j : Nat), n - start ≤ k → j ∈ rangeStep start n step →
      start ≤ j ∧ j < n := by
    intro k
    induction k with
    | zero =>
      intro start j hk hm
      rw [rangeStep] at hm
      split at hm
      · next h => omega
      · simp at hm
    | succ k ih =>
      intro start j hk hm
      rw [rangeStep] at hm
      split at hm
      · next h =>
        rcases List.mem_cons.mp hm with rfl | hm'
        · omega
        · have := ih (start + step) j (by omega) hm'
          omega
      · simp at hm
  intro start j hm
  exact H (n - start) start j (le_refl _) hm

theorem mem_rangeStep_mul {n step : Nat} (hstep : 0 < step) :
    ∀ (m start : Nat), start + step * m < n →
      (start + step * m) ∈ rangeStep start n step := by
  intro m
  induction m with
  | zero =>
    intro start h
    rw [rangeStep, dif_pos ⟨hstep, by omega⟩]
    simpa using List.mem_cons_self (start + step * 0) _
  | succ m ih =>
    intro start h
    rw [rangeStep, dif_pos ⟨hstep, by omega⟩]
    refine List.mem_cons_of_mem _ ?_
    have key : start + step * (m + 1) = (start + step) + step * m := by ring
    rw [key] at h ⊢
    exact ih (start + step) h

theorem rangeStep_cover {n step : Nat} (hstep : 0 < step) {j : Nat} (hj : j < n) :
    ∃ i ∈ rangeStep 0 n step, i ≤ j ∧ j < i + step := by
  have h2 : j % step < step := Nat.mod_lt _ hstep
  have h3 : step * (j / step) + j % step = j := Nat.div_add_mod j step
  have hmem : step * (j / step) ∈ rangeStep 0 n step := by
    have := mem_rangeStep_mul (n := n) hstep (j / step) 0 (by omega)
    simpa using this
  exact ⟨step * (j / step), hmem, by omega, by omega⟩

/-! ## Decimal rendering (Python `str` of a nonnegative int) -/

theorem digitChar_toNat {d : Nat} (hd : d < 10) : (digitChar d).toNat = 48 + d := by
  interval_cases d <;> decide

theorem digitChar_ne_underscore {d : Nat} (hd : d < 10) : digitChar d ≠ '_' := by
  interval_cases d <;> decide

theorem toDecAux_no_underscore : ∀ (fuel n : Nat), n < fuel → '_' ∉ toDecAux fuel n := by
  intro fuel
  induction fuel with
  | zero => intro n h; omega
  | succ fuel ih =>
    intro n h hmem
    simp only [toDecAux] at hmem
    split at hmem
    · next h10 =>
      exact digitChar_ne_underscore h10 (List.mem_singleton.mp hmem).symm
    · next h10 =>
      rcases List.mem_append.mp hmem with h1 | h1
      · exact ih (n / 10) (by omega) h1
      · exact digitChar_ne_underscore (Nat.mod_lt _ (by omega))
          (List.mem_singleton.mp h1).symm

theorem decodeDecimal_toDecAux : ∀ (fuel n : Nat), n < fuel →
    decodeDecimal (toDecAux fuel n) = n := by
  intro fuel
  induction fuel with
  | zero => intro n h; omega
  | succ fuel ih =>
    intro n h
    simp only [toDecAux]
    split
    · next h10 =>
      simp [decodeDecimal, digitChar_toNat h10]
    · next h10 =>
      have hlt : n / 10 < fuel := by omega
      have hmod : n % 10 < 10 := Nat.mod_lt _ (by omega)
      unfold decodeDecimal
      rw [List.foldl_append]
      have := ih (n / 10) hlt
      unfold decodeDecimal at this
      rw [this]
      simp only [List.foldl_cons, List.foldl_nil]
      rw [digitChar_toNat hmod]
      omega

theorem natToDecimal_no_underscore (n : Nat) : '_' ∉ natToDecimal n :=
  toDecAux_no_underscore (n + 1) n (by omega)

theorem decodeDecimal_natToDecimal (n : Nat) : decodeDecimal (natToDecimal n) = n :=
  decodeDecimal_toDecAux (n + 1) n (by omega)

theorem natToDecimal_inj {a b : Nat} (h : natToDecimal a = natToDecimal b) : a = b := by
  have := congrArg decodeDecimal h
  rwa [decodeDecimal_natToDecimal, decodeDecimal_natToDecimal] at this

theorem append_sep_inj : ∀ {a : List Char} {b : List Char} {a' b' : List Char},
    '_' ∉ a → '_' ∉ a' → a ++ '_' :: b = a' ++ '_' :: b' → a = a' ∧ b = b' := by
  intro a
  induction a with
  | nil =>
    intro b a' b' _ ha' h
    cases a' with
    | nil => simpa using h
    | cons c t =>
      simp only [List.nil_append, List.cons_append, List.cons.injEq] at h
      exact absurd (h.1 ▸ List.mem_cons_self c t) ha'
  | cons c t ih =>
    intro b a' b' ha ha' h
    cases a' with
    | nil =>
      simp only [List.cons_append, List.nil_append, List.cons.injEq] at h
      exact absurd (h.1 ▸ List.mem_cons_self c []) (by simpa [h.1] using ha)
    | cons c' t' =>
      simp only [List.cons_append, List.cons.injEq] at h
      obtain ⟨rfl, h2⟩ := h
      have := ih (fun hm => ha (List.mem_cons_of_mem _ hm))
        (fun hm => ha' (List.mem_cons_of_mem _ hm)) h2
      exact ⟨by rw [this.1], this.2⟩

theorem mkId_inj {d j d' j' : Nat} (h : mkId d j = mkId d' j') : d = d' ∧ j = j' := by
  unfold mkId at h
  have hdata : natToDecimal d ++ '_' :: natToDecimal j
      = natToDecimal d' ++ '_' :: natToDecimal j' := congrArg String.data h
  have := append_sep_inj (natToDecimal_no_underscore d) (natToDecimal_no_underscore d') hdata
  exact ⟨natToDecimal_inj this.1, natToDecimal_inj this.2⟩

/-! ## Behaviour of `chunk_text` -/

theorem window_wf {words : List (List Char)}
    (hwf : ∀ w ∈ words, w ≠ [] ∧ ∀ c ∈ w, c.isWhitespace = false) (i k : Nat) :
    ∀ w ∈ (words.drop i).take k, w ≠ [] ∧ ∀ c ∈ w, c.isWhitespace = false :=
  fun w hw => hwf w (List.drop_subset i words (List.take_subset k _ hw))

theorem pyStrip_joinSp_ne_nil {window : List (List Char)}
    (hwf : ∀ w ∈ window, w ≠ [] ∧ ∀ c ∈ w, c.isWhitespace = false)
    (hne : window ≠ []) : pyStrip (joinSp window) ≠ [] := by
  obtain ⟨w, rest, rfl⟩ := List.exists_cons_of_ne_nil hne
  obtain ⟨hwne, hwchars⟩ := hwf w (List.mem_cons_self ..)
  obtain ⟨c, w', rfl⟩ := List.exists_cons_of_ne_nil hwne
  obtain ⟨t, ht⟩ := joinSp_cons (c :: w') rest
  rw [ht]
  exact pyStrip_ne_nil (by simp) (hwchars c (List.mem_cons_self ..))

theorem chunk_text_pos_stride (text : String) (chunk_size overlap : Int)
    (hov : 0 ≤ overlap) (hlt : overlap < chunk_size) :
    chunk_text text chunk_size overlap =
      .ok ((rangeStep 0 (splitWs text.data).length (chunk_size - overlap).toNat).map
        (fun i => String.mk (joinSp (((splitWs text.data).drop i).take chunk_size.toNat)))) := by
  unfold chunk_text
  rw [if_neg (by omega), if_pos (by omega)]
  have hslice : ∀ (i : Nat), pySlice (splitWs text.data) (i : Int) ((i : Int) + chunk_size)
      = ((splitWs text.data).drop i).take chunk_size.toNat :=
    fun i => pySlice_natCast _ i chunk_size (by omega)
  simp only [hslice]
  congr 1
  apply List.filter_eq_self.mpr
  intro chunk hchunk
  obtain ⟨i, hi, rfl⟩ := List.mem_map.mp hchunk
  have hin : i < (splitWs text.data).length := (mem_rangeStep_bounds hi).2
  have hwin_ne : ((splitWs text.data).drop i).take chunk_size.toNat ≠ [] := by
    apply List.ne_nil_of_length_pos
    rw [List.length_take, List.length_drop]
    omega
  have hstrip := pyStrip_joinSp_ne_nil (window_wf splitWs_wf i chunk_size.toNat) hwin_ne
  simpa [List.isEmpty_iff] using hstrip

theorem chunk_window_words (text : String) (i k : Nat) :
    pyWords (String.mk (joinSp (((splitWs text.data).drop i).take k)))
      = (((splitWs text.data).drop i).take k).map String.mk := by
  unfold pyWords
  rw [show (String.mk (joinSp (((splitWs text.data).drop i).take k))).data
      = joinSp (((splitWs text.data).drop i).take k) from rfl]
  rw [splitWs_joinSp _ (window_wf splitWs_wf i k)]

/-- C2 (amended): for `overlap >= chunkSize` the chunker never loops: with
`overlap = chunkSize` (zero stride) `chunk_text` raises `ValueError` — Python
`range` rejects a zero step — which is an error but not a `ConfigError`; with
`overlap > chunkSize` (negative stride) it does not fail at all: `range`
yields no indices and the empty chunk list is returned. -/
theorem chunk_text_nonpos_stride (text : String) (chunk_size overlap : Int)
    (h : chunk_size ≤ overlap) :
    chunk_text text chunk_size overlap =
      (if chunk_size = overlap then .error .valueError else .ok []) := by
  unfold chunk_text
  by_cases he : chunk_size = overlap
  · rw [if_pos (by omega), if_pos he]
  · rw [if_neg (by omega), if_neg he, if_neg (by omega)]
    simp

/-- C2, counterexample to the claim as stated: with `overlap = 3 > 2 =
chunkSize` the chunk operation does not fail with a `ConfigError` — it
returns a chunk sequence (the empty one). -/
theorem chunk_text_overlap_gt_no_error :
    chunk_text "a b" 2 3 = .ok ([] : List String) := rfl

/-- C2, witness for `chunk_text_nonpos_stride` at `chunkSize = 2`,
`overlap = 3`. -/
theorem chunk_text_nonpos_stride_witness :
    (2 : Int) ≤ 3 ∧ chunk_text "a b" 2 3 =
      (if (2 : Int) = 3 then .error .valueError else .ok []) :=
  ⟨by norm_num, chunk_text_nonpos_stride "a b" 2 3 (by norm_num)⟩

/-- C4: for valid parameters (`0 ≤ overlap < chunkSize`) chunking succeeds,
every word of the input text occurs in at least one chunk, no chunk holds
more than `chunkSize` words, and a second run on the same input yields the
identical output. -/
theorem chunk_text_valid_params (text : String) (chunk_size overlap : Int)
    (hov : 0 ≤ overlap) (hlt : overlap < chunk_size) :
    ∃ chunks, chunk_text text chunk_size overlap = .ok chunks ∧
      (∀ w ∈ pyWords text, ∃ c ∈ chunks, w ∈ pyWords c) ∧
      (∀ c ∈ chunks, (pyWords c).length ≤ chunk_size.toNat) ∧
      chunk_text text chunk_size overlap = chunk_text text chunk_size overlap := by
  refine ⟨_, chunk_text_pos_stride text chunk_size overlap hov hlt, ?_, ?_, rfl⟩
  · intro w hw
    unfold pyWords at hw
    obtain ⟨wc, hwc, rfl⟩ := List.mem_map.mp hw
    obtain ⟨j, hj, hwj⟩ := List.mem_iff_getElem.mp hwc
    have hstep : 0 < (chunk_size - overlap).toNat := by omega
    obtain ⟨i, hi, hij, hjlt⟩ := rangeStep_cover hstep hj
    refine ⟨String.mk (joinSp (((splitWs text.data).drop i).take chunk_size.toNat)),
      List.mem_map_of_mem _ hi, ?_⟩
    rw [chunk_window_words]
    apply List.mem_map_of_mem
    have hlenw : j - i < (((splitWs text.data).drop i).take chunk_size.toNat).length := by
      rw [List.length_take, List.length_drop]
      omega
    have hidx : i + (j - i) = j := by omega
    have hget : (((splitWs text.data).drop i).take chunk_size.toNat)[j - i] = wc := by
      simp only [List.getElem_take, List.getElem_drop, hidx]
      exact hwj
    exact hget ▸ List.getElem_mem hlenw
  · intro c hc
    obtain ⟨i, _, rfl⟩ := List.mem_map.mp hc
    rw [chunk_window_words, List.length_map, List.length_take]
    exact min_le_left _ _

/-- C4, witness for `chunk_text_valid_params` at text `"a b c d e"`,
`chunkSize = 3`, `overlap = 1`. -/
theorem chunk_text_valid_params_witness :
    (0 : Int) ≤ 1 ∧ (1 : Int) < 3 ∧
    (∃ chunks, chunk_text "a b c d e" 3 1 = .ok chunks ∧
      (∀ w ∈ pyWords "a b c d e", ∃ c ∈ chunks, w ∈ pyWords c) ∧
      (∀ c ∈ chunks, (pyWords c).length ≤ (3 : Int).toNat) ∧
      chunk_text "a b c d e" 3 1 = chunk_text "a b c d e" 3 1) :=
  ⟨by norm_num, by norm_num,
    chunk_text_valid_params "a b c d e" 3 1 (by norm_num) (by norm_num)⟩

/-! ## The chat endpoint -/

/-- C1 (bug evidenced): against an empty store the endpoint's own
`HTTPException(404, "No relevant documents found")` is caught by the blanket
`except Exception` of `chat` and re-raised as
`HTTPException(500, "404: No relevant documents found")`, so the caller sees
a generic HTTP 500, not the distinct 404 the code itself tries to raise. -/
theorem chat_empty_retrieval_is_500 :
    chat envEmptyStore { question := "q" } =
      .error { status_code := 500, detail := "404: No relevant documents found" } := rfl

/-- C3 (amended): `query_documents` performs no `top_k` validation at all:
for every `top_k` — positive or not — it first calls the embedding client on
the one-element batch `[question]` and then queries the vector store with
`n_results = top_k` passed straight through, never failing with a
`ConfigError` of its own. -/
theorem query_documents_always_calls_clients {V D : Type} (env : Env V D)
    (question : String) (top_k : Int) :
    query_documents env question top_k =
      ([Event.encodeCall [question], Event.queryCall (env.encode [question]) top_k],
       (env.query (env.encode [question]) top_k).map (fun r => ⟨r.1, r.2.1, r.2.2⟩)) := rfl

/-- C3, counterexample to the claim as stated: with the non-positive
`top_k = 0` the retrieval does not fail before contacting the external
clients — its call trace records the embedding call and the store query
(with `n_results = 0` passed through). -/
theorem query_documents_topk_zero_contacts_clients :
    ¬ (0 : Int) > 0 ∧
    (query_documents envNoValidation "q" 0).1 =
      [Event.encodeCall ["q"], Event.queryCall [0] 0] :=
  ⟨by norm_num, rfl⟩

/-- C5: when the collection already reports a positive count,
`populate_database` returns immediately with zero chunks added: its trace
holds no embedding call and no store-add call, and replaying the trace
against any store ledger leaves it unchanged. -/
theorem populate_database_skips_when_nonempty {V D : Type} (env : Env V D)
    (h : 0 < env.count) :
    ∃ evts, populate_database env = .ok (evts, 0) ∧
      (∀ ts, Event.encodeCall ts ∉ evts) ∧
      (∀ ds es ms ks, Event.addCall ds es ms ks ∉ evts) ∧
      (∀ init, storeAfter init evts = init) := by
  refine ⟨[Event.countCall, Event.countCall], ?_, ?_, ?_, ?_⟩
  · unfold populate_database
    rw [if_pos h]
  · intro ts hmem
    simp at hmem
  · intro ds es ms ks hmem
    simp at hmem
  · intro init
    rfl

/-- C5, witness for `populate_database_skips_when_nonempty` against a
collection holding one item. -/
theorem populate_database_skips_witness :
    0 < envPrePopulated.count ∧
    (∃ evts, populate_database envPrePopulated = .ok (evts, 0) ∧
      (∀ ts, Event.encodeCall ts ∉ evts) ∧
      (∀ ds es ms ks, Event.addCall ds es ms ks ∉ evts) ∧
      (∀ init, storeAfter init evts = init)) :=
  ⟨by decide, populate_database_skips_when_nonempty envPrePopulated (by decide)⟩

/-- C6: when retrieval produced a non-empty document list and the generation
client raises, `chat` does not propagate the exception: it answers `200 OK`
with the fixed apology text embedding the underlying error message, and with
the sources built from the retrieved chunks. -/
theorem chat_generation_failure_degrades {V D : Type} (env : Env V D)
    (req : QueryRequest) (docs : List (RetrievedDoc D)) (e : String)
    (hdocs : (query_documents env req.question req.top_k).2 = docs)
    (hne : docs ≠ [])
    (hgen : env.generate (build_prompt req.question docs) = .error e) :
    chat env req = .ok
      ⟨"Error generating response: " ++ e ++
          ". Please make sure Ollama is running and Llama3 model is installed.",
        pySetList (docs.map (fun doc => fmtSource doc.metadata))⟩ := by
  unfold chat chat_body
  rw [hdocs, if_neg (by simp [List.isEmpty_iff, hne])]
  unfold generate_answer
  rw [hgen]

/-- C6, witness for `chat_generation_failure_degrades` with one retrieved
chunk and a generation client that raises `"boom"`. -/
theorem chat_generation_failure_witness :
    (query_documents envGenFail "q" 3).2 = [⟨"some text", ⟨"T", "u", 0⟩, 0⟩] ∧
    ([⟨"some text", ⟨"T", "u", 0⟩, 0⟩] : List (RetrievedDoc Int)) ≠ [] ∧
    envGenFail.generate
      (build_prompt "q" ([⟨"some text", ⟨"T", "u", 0⟩, 0⟩] : List (RetrievedDoc Int)))
      = .error "boom" ∧
    chat envGenFail { question := "q" } = .ok
      ⟨"Error generating response: " ++ "boom" ++
          ". Please make sure Ollama is running and Llama3 model is installed.",
        pySetList (([⟨"some text", ⟨"T", "u", 0⟩, 0⟩] :
          List (RetrievedDoc Int)).map (fun doc => fmtSource doc.metadata))⟩ :=
  ⟨rfl, by simp, rfl,
    chat_generation_failure_degrades envGenFail { question := "q" } _ "boom" rfl (by simp) rfl⟩

/-- C7 (amended): for a non-empty retrieval, the response's sources are the
deduplication of the per-chunk formatted strings — `"{title}"` for an empty
url, `"{title} ({url})"` otherwise: each distinct formatted string appears
exactly once, and a string appears iff some retrieved chunk formats to it.
Chunks with the same `(title, url)` pair collapse; so do distinct pairs whose
formatted strings happen to coincide. -/
theorem chat_sources_dedup {V D : Type} (env : Env V D) (req : QueryRequest)
    (docs : List (RetrievedDoc D))
    (hdocs : (query_documents env req.question req.top_k).2 = docs)
    (hne : docs ≠ []) :
    ∃ ans, chat env req = .ok ⟨ans,
        pySetList (docs.map (fun doc => fmtSource doc.metadata))⟩ ∧
      (∀ s, s ∈ pySetList (docs.map (fun doc => fmtSource doc.metadata)) ↔
        ∃ d ∈ docs, s = fmtSource d.metadata) ∧
      (pySetList (docs.map (fun doc => fmtSource doc.metadata))).Nodup := by
  refine ⟨generate_answer env req.question docs, ?_, ?_, ?_⟩
  · unfold chat chat_body
    rw [hdocs, if_neg (by simp [List.isEmpty_iff, hne])]
  · intro s
    simp [pySetList, List.mem_dedup, List.mem_map, eq_comm]
  · exact List.nodup_dedup _

/-- C7, counterexample to the claim as stated: the two retrieved chunks carry
two distinct `(title, url)` pairs — `("A (B)", "")` and `("A", "B")` — yet
the response holds a single source entry, because both pairs format to the
string `"A (B)"`. -/
theorem chat_sources_pair_collision :
    ((query_documents envCollide "q" 3).2.map
        (fun d => (d.metadata.title, d.metadata.url))).dedup.length = 2 ∧
    chat envCollide { question := "q" } =
      .ok { answer := "ans", sources := ["A (B)"] } :=
  ⟨rfl, rfl⟩

/-- C7, witness for `chat_sources_dedup` at the two-chunk retrieval of
`envCollide`. -/
theorem chat_sources_dedup_witness :
    (query_documents envCollide "q" 3).2 =
      [⟨"x", ⟨"A (B)", "", 0⟩, 0⟩, ⟨"y", ⟨"A", "B", 0⟩, 0⟩] ∧
    ([⟨"x", ⟨"A (B)", "", 0⟩, 0⟩, ⟨"y", ⟨"A", "B", 0⟩, 0⟩] :
      List (RetrievedDoc Int)) ≠ [] ∧
    (∃ ans, chat envCollide { question := "q" } = .ok ⟨ans,
        pySetList (([⟨"x", ⟨"A (B)", "", 0⟩, 0⟩, ⟨"y", ⟨"A", "B", 0⟩, 0⟩] :
          List (RetrievedDoc Int)).map (fun doc => fmtSource doc.metadata))⟩ ∧
      (∀ s, s ∈ pySetList (([⟨"x", ⟨"A (B)", "", 0⟩, 0⟩, ⟨"y", ⟨"A", "B", 0⟩, 0⟩] :
          List (RetrievedDoc Int)).map (fun doc => fmtSource doc.metadata)) ↔
        ∃ d ∈ ([⟨"x", ⟨"A (B)", "", 0⟩, 0⟩, ⟨"y", ⟨"A", "B", 0⟩, 0⟩] :
          List (RetrievedDoc Int)), s = fmtSource d.metadata) ∧
      (pySetList (([⟨"x", ⟨"A (B)", "", 0⟩, 0⟩, ⟨"y", ⟨"A", "B", 0⟩, 0⟩] :
          List (RetrievedDoc Int)).map (fun doc => fmtSource doc.metadata))).Nodup) :=
  ⟨rfl, by simp,
    chat_sources_dedup envCollide { question := "q" } _ rfl (by simp)⟩

/-- C8 (amended): the prompt is the fixed instruction prefix (which carries
the tell-the-model-to-say-so-when-not-found instruction), then the retrieved
chunk texts in the order given joined by blank lines, then the fixed question
header, the literal question, and the fixed answer suffix.  The instruction
template thus precedes the context rather than following it. -/
theorem build_prompt_shape {D : Type} (question : String)
    (context_docs : List (RetrievedDoc D)) :
    build_prompt question context_docs =
      promptInstructionText
        ++ String.intercalate "\n\n" (context_docs.map (fun doc => doc.content))
        ++ promptQuestionHeader ++ question ++ promptAnswerTail := rfl

/-- C8, counterexample to the claim as stated: no fixed template `t` makes
the prompt equal to the blank-line-joined chunk texts followed by `t` and
then the literal question — the prompt always ends with the fixed
`"\n\nAnswer:"` tail, not with the question. -/
theorem build_prompt_not_context_first :
    ¬ ∃ t : String, ∀ (question : String) (docs : List (RetrievedDoc Int)),
        docs ≠ [] →
        build_prompt question docs =
          String.intercalate "\n\n" (docs.map (fun doc => doc.content)) ++ t ++ question := by
  rintro ⟨t, h⟩
  have h1 := h "A" [⟨"", ⟨"T", "u", 0⟩, 0⟩] (by simp)
  have hdata := congrArg String.data h1
  rw [String.data_append, String.data_append] at hdata
  have hlast := congrArg List.getLast? hdata
  rw [show ("A" : String).data = ['A'] from rfl, List.getLast?_concat] at hlast
  rw [show (build_prompt "A" ([⟨"", ⟨"T", "u", 0⟩, 0⟩] :
      List (RetrievedDoc Int))).data.getLast? = some ':' from rfl] at hlast
  exact absurd hlast (by decide)

/-! ## Ingestion: id assignment and alignment -/

theorem chunk_text_ok_default (t : String) : ∃ cs, chunk_text t 500 50 = .ok cs :=
  ⟨_, chunk_text_pos_stride t 500 50 (by norm_num) (by norm_num)⟩

theorem enum_map_snd_eta {α : Type} (l : List α) : l.enum.map (fun p => p.2) = l :=
  List.enum_map_snd l

theorem mem_enum_elim {α : Type} {l : List α} {p : Nat × α} (hp : p ∈ l.enum) :
    ∃ h : p.1 < l.length, l[p.1] = p.2 :=
  List.getElem?_eq_some_iff.mp (List.mem_enum_iff_getElem?.mp hp)

theorem buildLists_ids_spec : ∀ (arts : List Article) (d0 : Nat),
    ∃ docs metas ids, buildLists arts d0 = .ok (docs, metas, ids) ∧
      ids.Nodup ∧ ∀ s ∈ ids, ∃ d j, d0 ≤ d ∧ s = mkId d j := by
  intro arts
  induction arts with
  | nil => exact fun d0 => ⟨[], [], [], rfl, List.nodup_nil, by simp⟩
  | cons a rest ih =>
    intro d0
    obtain ⟨cs, hcs⟩ := chunk_text_ok_default a.content
    obtain ⟨docs, metas, ids, hbl, hnd, hform⟩ := ih (d0 + 1)
    refine ⟨cs ++ docs, (cs.enum.map (fun p => Metadata.mk a.title a.url p.1)) ++ metas,
      (cs.enum.map (fun p => mkId d0 p.1)) ++ ids, ?_, ?_, ?_⟩
    · simp only [buildLists, hcs, hbl]
    · have hmapeq : cs.enum.map (fun p => mkId d0 p.1)
          = (cs.enum.map Prod.fst).map (mkId d0) := by
        rw [List.map_map]
        rfl
      have hA : (cs.enum.map (fun p => mkId d0 p.1)).Nodup := by
        rw [hmapeq, List.enum_map_fst]
        exact (List.nodup_range _).map (fun x y hxy => (mkId_inj hxy).2)
      refine hA.append hnd ?_
      intro s hsA hsI
      obtain ⟨p, _, rfl⟩ := List.mem_map.mp hsA
      obtain ⟨d, j, hd, heq⟩ := hform _ hsI
      obtain ⟨hd', _⟩ := mkId_inj heq
      omega
    · intro s hs
      rcases List.mem_append.mp hs with hsA | hsI
      · obtain ⟨p, _, rfl⟩ := List.mem_map.mp hsA
        exact ⟨d0, p.1, le_refl _, rfl⟩
      · obtain ⟨d, j, hd, heq⟩ := hform s hsI
        exact ⟨d, j, by omega, heq⟩

/-- C9: across any article sequence, the chunk identifiers assigned by the
ingestion loop — `f"{doc_id}_{i}"` with document sequence numbers starting
at 0 and a 0-based chunk index within each document — are pairwise
distinct. -/
theorem ingestion_ids_nodup (articles : List Article) :
    ∃ docs metas ids, buildLists articles 0 = .ok (docs, metas, ids) ∧ ids.Nodup := by
  obtain ⟨docs, metas, ids, h1, h2, _⟩ := buildLists_ids_spec articles 0
  exact ⟨docs, metas, ids, h1, h2⟩

theorem buildLists_rows : ∀ (arts : List Article) (d0 : Nat),
    ∃ rows : List (String × Metadata × String),
      buildLists arts d0 = .ok (rows.map (fun r => r.1), rows.map (fun r => r.2.1),
        rows.map (fun r => r.2.2)) ∧
      ∀ r ∈ rows, ∃ d, ∃ hd : d < arts.length, ∃ chunks,
        chunk_text (arts[d]).content 500 50 = .ok chunks ∧
        ∃ j, ∃ hj : j < chunks.length,
          r = (chunks[j], ⟨(arts[d]).title, (arts[d]).url, j⟩, mkId (d0 + d) j) := by
  intro arts
  induction arts with
  | nil => exact fun d0 => ⟨[], rfl, by simp⟩
  | cons a rest ih =>
    intro d0
    obtain ⟨cs, hcs⟩ := chunk_text_ok_default a.content
    obtain ⟨rows, hbl, hrows⟩ := ih (d0 + 1)
    refine ⟨(cs.enum.map
        (fun p => (p.2, (⟨a.title, a.url, p.1⟩ : Metadata), mkId d0 p.1))) ++ rows, ?_, ?_⟩
    · simp only [buildLists, hcs, hbl, List.map_append, List.map_map]
      rw [show ((fun (r : String × Metadata × String) => r.1) ∘
          (fun (p : Nat × String) => (p.2, (⟨a.title, a.url, p.1⟩ : Metadata), mkId d0 p.1)))
          = (fun (p : Nat × String) => p.2) from rfl, enum_map_snd_eta]
      rfl
    · intro r hr
      rcases List.mem_append.mp hr with hA | hB
      · obtain ⟨p, hp, rfl⟩ := List.mem_map.mp hA
        obtain ⟨hj, hget⟩ := mem_enum_elim hp
        refine ⟨0, by simp, cs, by simpa using hcs, p.1, hj, ?_⟩
        simp only [List.getElem_cons_zero, Nat.add_zero]
        rw [hget]
      · obtain ⟨d, hd, chunks, hck, j, hj, hr'⟩ := hrows r hB
        refine ⟨d + 1, by simpa using Nat.succ_lt_succ hd, chunks, by simpa using hck, j, hj, ?_⟩
        have heq : d0 + 1 + d = d0 + (d + 1) := by omega
        rw [heq] at hr'
        simpa using hr'

/-- C10: whenever ingestion reaches the store-add step, the four sequences
passed to `collection.add` — chunk texts, embeddings, metadata records,
identifiers — have equal length (given the embedding client's one-vector-per-
text contract) and are projections of one aligned row list: position `i` of
every sequence refers to the same chunk, whose metadata carries that chunk's
source title, source url and within-document chunk index, and whose id is
`f"{doc_id}_{chunk_idx}"` for its document's sequence number. -/
theorem populate_database_add_aligned {V D : Type} (env : Env V D)
    (hc : env.count = 0) (ha : env.fetchArticles ≠ [])
    (hlen : ∀ ts, (env.encode ts).length = ts.length) :
    ∃ (evts : List (Event V)) (n : Nat) (docs : List String) (embs : List V)
      (metas : List Metadata) (ids : List String)
      (rows : List (String × Metadata × String)),
      populate_database env = .ok (evts, n) ∧
      Event.addCall docs embs metas ids ∈ evts ∧
      embs = env.encode docs ∧
      docs.length = embs.length ∧ docs.length = metas.length ∧
      docs.length = ids.length ∧
      docs = rows.map (fun r => r.1) ∧ metas = rows.map (fun r => r.2.1) ∧
      ids = rows.map (fun r => r.2.2) ∧
      ∀ r ∈ rows, ∃ d, ∃ hd : d < env.fetchArticles.length, ∃ chunks,
        chunk_text ((env.fetchArticles[d]).content) 500 50 = .ok chunks ∧
        ∃ j, ∃ hj : j < chunks.length,
          r = (chunks[j],
               ⟨(env.fetchArticles[d]).title, (env.fetchArticles[d]).url, j⟩,
               mkId d j) := by
  obtain ⟨rows, hbl, hrows⟩ := buildLists_rows env.fetchArticles 0
  simp only [Nat.zero_add] at hrows
  refine ⟨[Event.countCall, Event.fetchCall, Event.encodeCall (rows.map (fun r => r.1)),
      Event.addCall (rows.map (fun r => r.1)) (env.encode (rows.map (fun r => r.1)))
        (rows.map (fun r => r.2.1)) (rows.map (fun r => r.2.2))],
    (rows.map (fun r => r.1)).length,
    rows.map (fun r => r.1), env.encode (rows.map (fun r => r.1)),
    rows.map (fun r => r.2.1), rows.map (fun r => r.2.2), rows, ?_, ?_, rfl,
    ?_, ?_, ?_, rfl, rfl, rfl, hrows⟩
  · unfold populate_database
    rw [if_neg (by omega), if_neg (by simp [List.isEmpty_iff, ha]), hbl]
  · simp
  · rw [hlen]
  · rw [List.length_map, List.length_map]
  · rw [List.length_map, List.length_map]

/-- C10, witness for `populate_database_add_aligned` against an empty
collection with one fetchable article. -/
theorem populate_database_add_aligned_witness :
    envOneDoc.count = 0 ∧ envOneDoc.fetchArticles ≠ [] ∧
    (∀ ts, (envOneDoc.encode ts).length = ts.length) ∧
    (∃ (evts : List (Event Nat)) (n : Nat) (docs : List String) (embs : List Nat)
      (metas : List Metadata) (ids : List String)
      (rows : List (String × Metadata × String)),
      populate_database envOneDoc = .ok (evts, n) ∧
      Event.addCall docs embs metas ids ∈ evts ∧
      embs = envOneDoc.encode docs ∧
      docs.length = embs.length ∧ docs.length = metas.length ∧
      docs.length = ids.length ∧
      docs = rows.map (fun r => r.1) ∧ metas = rows.map (fun r => r.2.1) ∧
      ids = rows.map (fun r => r.2.2) ∧
      ∀ r ∈ rows, ∃ d, ∃ hd : d < envOneDoc.fetchArticles.length, ∃ chunks,
        chunk_text ((envOneDoc.fetchArticles[d]).content) 500 50 = .ok chunks ∧
        ∃ j, ∃ hj : j < chunks.length,
          r = (chunks[j],
               ⟨(envOneDoc.fetchArticles[d]).title, (envOneDoc.fetchArticles[d]).url, j⟩,
               mkId d j)) :=
  ⟨rfl, by decide, fun ts => by simp [envOneDoc],
    populate_database_add_aligned envOneDoc rfl (by decide) (fun ts => by simp [envOneDoc])⟩

end RagChatbot
